import Mathlib

/-!
# Verification of the beego MSSQL dialect (`client/orm/db_mssql.go`)

Shallow embedding of the SQL Server dialect of the beego ORM: the operator
table, the reserved-word set, placeholder rewriting (`ReplaceMarks`), the
catalog-introspection query builders, and the capability predicates.  Go
strings are modelled as `List Char`; the Go map lookups, `strings.Split`
and `fmt.Sprintf` call sites are embedded as executable Lean functions.
-/

/-- The Go call `strings.Split(s, sep)` for a one-character separator, over
`List Char`: splits around every occurrence of `sep`, keeping empty
pieces, and always returns at least one piece. -/
def splitOn (sep : Char) : List Char → List (List Char)
  | [] => [[]]
  | c :: cs =>
    if c = sep then [] :: splitOn sep cs
    else
      match splitOn sep cs with
      | [] => [[c]]
      | p :: ps => (c :: p) :: ps

/-- The rejoining loop of `ReplaceMarks`: writes every piece but the last
followed by `$i` (decimal, `i` starting from the given index), then the
last piece verbatim — the Go loop
`for i := 0; i < len(ss)-1; i++ { out += ss[i] + "$" + itoa(i+1) }`
followed by `out += ss[len(ss)-1]`. -/
def joinMarks (i : Nat) : List (List Char) → List Char
  | [] => []
  | [last] => last
  | p :: rest => p ++ '$' :: (Nat.toDigits 10 i ++ joinMarks (i + 1) rest)

/-- Method `(*dbBaseMssql).ReplaceMarks` from `db_mssql.go`: split the query on
the universal marker `?`; if more than one piece results, rejoin the
pieces interleaving `$1`, `$2`, …; otherwise leave the query unchanged. -/
def ReplaceMarks (query : List Char) : List Char :=
  let ss := splitOn '?' query
  if ss.length > 1 then joinMarks 1 ss else query

/-- Specification-level rewriting: scan the string left to right and
replace the i-th textual occurrence of `?` (1-based, counting from the
given index) with `$i`, leaving all other characters unchanged and in
order. -/
def replaceMarksSpec : Nat → List Char → List Char
  | _, [] => []
  | i, c :: cs =>
    if c = '?' then '$' :: (Nat.toDigits 10 i ++ replaceMarksSpec (i + 1) cs)
    else c :: replaceMarksSpec i cs


theorem splitOn_ne_nil (sep : Char) (l : List Char) : splitOn sep l ≠ [] := by
  cases l with
  | nil => simp [splitOn]
  | cons c cs =>
    simp only [splitOn]
    split
    · simp
    · split
      · simp
      · simp

theorem joinMarks_cons (i : Nat) (c : Char) (p : List Char) (ps : List (List Char)) :
    joinMarks i ((c :: p) :: ps) = c :: joinMarks i (p :: ps) := by
  cases ps with
  | nil => simp [joinMarks]
  | cons q qs => simp [joinMarks]

theorem joinMarks_splitOn (l : List Char) :
    ∀ i : Nat, joinMarks i (splitOn '?' l) = replaceMarksSpec i l := by
  induction l with
  | nil => intro i; simp [splitOn, joinMarks, replaceMarksSpec]
  | cons c cs ih =>
    intro i
    by_cases hc : c = '?'
    · subst hc
      simp only [splitOn, if_pos rfl, replaceMarksSpec]
      obtain ⟨p, ps, hps⟩ : ∃ p ps, splitOn '?' cs = p :: ps := by
        cases h : splitOn '?' cs with
        | nil => exact absurd h (splitOn_ne_nil _ _)
        | cons p ps => exact ⟨p, ps, rfl⟩
      rw [hps]
      simp only [joinMarks, List.nil_append]
      rw [← hps, ih (i + 1)]
      simp
    · simp only [splitOn, if_neg hc, replaceMarksSpec]
      obtain ⟨p, ps, hps⟩ : ∃ p ps, splitOn '?' cs = p :: ps := by
        cases h : splitOn '?' cs with
        | nil => exact absurd h (splitOn_ne_nil _ _)
        | cons p ps => exact ⟨p, ps, rfl⟩
      rw [hps, joinMarks_cons, ← hps, ih i]

theorem splitOn_singleton (sep : Char) (l x : List Char)
    (h : splitOn sep l = [x]) : x = l := by
  induction l generalizing x with
  | nil => simpa [splitOn] using h
  | cons c cs ih =>
    simp only [splitOn] at h
    split at h
    · obtain ⟨p, ps, hps⟩ : ∃ p ps, splitOn sep cs = p :: ps := by
        cases hs : splitOn sep cs with
        | nil => exact absurd hs (splitOn_ne_nil _ _)
        | cons p ps => exact ⟨p, ps, rfl⟩
      rw [hps] at h
      simp at h
    · obtain ⟨p, ps, hps⟩ : ∃ p ps, splitOn sep cs = p :: ps := by
        cases hs : splitOn sep cs with
        | nil => exact absurd hs (splitOn_ne_nil _ _)
        | cons p ps => exact ⟨p, ps, rfl⟩
      rw [hps] at h
      cases h' : ps with
      | nil =>
        subst h'
        have hx : x = c :: p := by simpa using h.symm
        have hp : p = cs := ih p (by rw [hps])
        rw [hx, hp]
      | cons q qs =>
        subst h'
        simp at h

theorem splitOn_not_mem (sep : Char) (l : List Char) (h : sep ∉ l) :
    splitOn sep l = [l] := by
  induction l with
  | nil => simp [splitOn]
  | cons c cs ih =>
    simp only [List.mem_cons, not_or] at h
    obtain ⟨h1, h2⟩ := h
    simp only [splitOn]
    rw [if_neg (fun hc => h1 hc.symm), ih h2]

/-- C1: `ReplaceMarks` replaces the i-th textual occurrence of the universal
marker `?` (counting left to right, quoted literals included) with the
backend-native placeholder `$i` (1-based), leaves all non-marker characters
unchanged and in order, returns a marker-free input unchanged, and maps
`"a=? AND b=?"` to `"a=$1 AND b=$2"`. -/
theorem ReplaceMarks_rewrites_each_marker :
    (∀ q : List Char, ReplaceMarks q = replaceMarksSpec 1 q) ∧
    (∀ q : List Char, '?' ∉ q → ReplaceMarks q = q) ∧
    ReplaceMarks ("a=? AND b=?".toList) = ("a=$1 AND b=$2".toList) := by
  refine ⟨?_, ?_, by decide⟩
  · intro q
    unfold ReplaceMarks
    by_cases h : (splitOn '?' q).length > 1
    · rw [if_pos h]
      exact joinMarks_splitOn q 1
    · rw [if_neg h]
      obtain ⟨x, hx⟩ : ∃ x, splitOn '?' q = [x] := by
        cases hs : splitOn '?' q with
        | nil => exact absurd hs (splitOn_ne_nil '?' q)
        | cons p ps =>
          cases ps with
          | nil => exact ⟨p, rfl⟩
          | cons r rs => rw [hs] at h; simp at h
      have hj := joinMarks_splitOn q 1
      rw [hx] at hj
      simp only [joinMarks] at hj
      rw [← hj]
      exact (splitOn_singleton '?' q x hx).symm
  · intro q h
    unfold ReplaceMarks
    rw [splitOn_not_mem '?' q h]
    simp

theorem ReplaceMarks_rewrites_each_marker_witness :
    ('?' ∉ ("abc".toList)) ∧ ReplaceMarks ("abc".toList) = ("abc".toList) :=
  ⟨by decide, ReplaceMarks_rewrites_each_marker.2.1 ("abc".toList) (by decide)⟩

/-- The `mssqlOperators` map from `db_mssql.go`, as an association list. -/
def mssqlOperators : List (String × String) := [
  ("exact", "= ?"),
  ("iexact", "= UPPER(?)"),
  ("contains", "LIKE ?"),
  ("icontains", "LIKE UPPER(?)"),
  ("gt", "> ?"),
  ("gte", ">= ?"),
  ("lt", "< ?"),
  ("lte", "<= ?"),
  ("eq", "= ?"),
  ("ne", "!= ?"),
  ("startswith", "LIKE ?"),
  ("endswith", "LIKE ?"),
  ("istartswith", "LIKE UPPER(?)"),
  ("iendswith", "LIKE UPPER(?)")]

/-- Method `(*dbBaseMssql).OperatorSQL`: a Go map read, which yields the zero
value `""` when the operator is not a key of the map. -/
def OperatorSQL (operator : String) : String :=
  (mssqlOperators.lookup operator).getD ""

/-- The supported abstract operator names (the keys of `mssqlOperators`). -/
def supportedOperators : List String :=
  ["exact", "iexact", "contains", "icontains", "gt", "gte", "lt", "lte",
   "eq", "ne", "startswith", "endswith", "istartswith", "iendswith"]

theorem supportedOperators_eq_keys :
    supportedOperators = mssqlOperators.map Prod.fst := by decide

/-- C2: every supported operator name resolves to a non-empty fragment
containing exactly one occurrence of the placeholder marker `?`. -/
theorem OperatorSQL_one_placeholder :
    ∀ op ∈ supportedOperators,
      OperatorSQL op ≠ "" ∧ (OperatorSQL op).toList.count '?' = 1 := by
  decide

theorem OperatorSQL_one_placeholder_witness :
    "exact" ∈ supportedOperators ∧
      OperatorSQL "exact" ≠ "" ∧ (OperatorSQL "exact").toList.count '?' = 1 :=
  ⟨by decide, OperatorSQL_one_placeholder "exact" (by decide)⟩

theorem lookup_eq_none_of_not_mem_keys {α β : Type} [BEq α] [LawfulBEq α]
    (l : List (α × β)) (a : α) (h : a ∉ l.map Prod.fst) : l.lookup a = none := by
  induction l with
  | nil => rfl
  | cons p ps ih =>
    simp only [List.map_cons, List.mem_cons, not_or] at h
    obtain ⟨h1, h2⟩ := h
    obtain ⟨k, v⟩ := p
    simp only [List.lookup]
    have : (a == k) = false := by
      simp only [beq_eq_false_iff_ne, ne_eq]
      exact fun hk => h1 hk
    rw [this]
    exact ih h2

/-- C5: an operator name outside the supported set resolves to the empty
string (the zero value of the Go map); the lookup is total and cannot crash. -/
theorem OperatorSQL_unknown_empty (op : String) (h : op ∉ supportedOperators) :
    OperatorSQL op = "" := by
  unfold OperatorSQL
  rw [lookup_eq_none_of_not_mem_keys mssqlOperators op
    (by rw [← supportedOperators_eq_keys]; exact h)]
  rfl

theorem OperatorSQL_unknown_empty_witness :
    "between" ∉ supportedOperators ∧ OperatorSQL "between" = "" :=
  ⟨by decide, OperatorSQL_unknown_empty "between" (by decide)⟩

/-- Does `pat` occur at the head of the second list? -/
def headMatch : List Char → List Char → Bool
  | [], _ => true
  | _ :: _, [] => false
  | a :: as, b :: bs => a == b && headMatch as bs

/-- Number of positions of the second list at which `pat` occurs as a
contiguous substring (intended for non-empty `pat`). -/
def countOccur (pat : List Char) : List Char → Nat
  | [] => 0
  | c :: cs => (if headMatch pat (c :: cs) then 1 else 0) + countOccur pat cs


/-- C6: each case-insensitive operator variant wraps its single placeholder
in an uppercasing call — the fragment contains exactly one occurrence of
`UPPER(?)` and exactly one `?` (so the one placeholder sits inside the
`UPPER` call and the bound value is never altered textually) — while the
corresponding case-sensitive variants contain no `UPPER` at all. -/
theorem OperatorSQL_upper_wrapping :
    (∀ op ∈ ["iexact", "icontains", "istartswith", "iendswith"],
      countOccur ("UPPER(?)".toList) ((OperatorSQL op).toList) = 1 ∧
      (OperatorSQL op).toList.count '?' = 1) ∧
    (∀ op ∈ ["exact", "contains", "startswith", "endswith"],
      countOccur ("UPPER".toList) ((OperatorSQL op).toList) = 0 ∧
      (OperatorSQL op).toList.count '?' = 1) := by
  decide

theorem OperatorSQL_upper_wrapping_witness :
    "iexact" ∈ (["iexact", "icontains", "istartswith", "iendswith"] : List String) ∧
      countOccur ("UPPER(?)".toList) ((OperatorSQL "iexact").toList) = 1 ∧
      (OperatorSQL "iexact").toList.count '?' = 1 :=
  ⟨by decide, OperatorSQL_upper_wrapping.1 "iexact" (by decide)⟩

/-- C10: the operator table conflates several abstract operators: `exact`
and `eq` both map to `= ?`, and `contains`, `startswith` and `endswith`
all map to `LIKE ?`. -/
theorem OperatorSQL_aliases :
    OperatorSQL "exact" = "= ?" ∧ OperatorSQL "eq" = "= ?" ∧
    OperatorSQL "contains" = "LIKE ?" ∧ OperatorSQL "startswith" = "LIKE ?" ∧
    OperatorSQL "endswith" = "LIKE ?" := by
  decide

/-- The raw comma-separated SQL Server keyword list from `db_mssql.go`. -/
def sqlServerKeywordsSrc : List Char :=
  ("ADD,EXTERNAL,NATIONAL,SUBSTRING,ALL,FETCH,NCHAR,SUM,ALTER,FILE,NEXT,SYMMETRIC,AND,FILEGROUP,NOCHECK,THEN,ANY,FILESTREAM,NONCLUSTERED,TO,AS,FILLFACTOR,NOT,TOP,ASC,FOR,NULL,TRAN,AUTHORIZATION,FOREIGN,NULLIF,TRIGGER,BACKUP,FREETEXT,NUMERIC,TRUNCATE,BEGIN,FREETEXTTABLE,OF,TRY_CONVERT,BETWEEN,FROM,OFF,TSEQUAL,BROWSE,FUNCTION,ON,UNION,BULK,GOTO,OPEN,UNIQUE,BY,GRANT,OPENDATASOURCE,UNPIVOT,CASCADE,GROUP,OPENQUERY,UPDATE,CASE,HAVING,OPENROWSET,UPDATETEXT,CHECK,HOLDLOCK,OPENXML,USE,CHECKPOINT,IDENTITY,OPTION,USER,CLOSE,IF,OR,VALUES,CLUSTERED,IN,ORDER,VARYING,COALESCE,INDEX,OUTER,VIEW,COLLATE,INNER,OVER,WAITFOR,COLUMN,INSERT,PERCENT,WHEN,COMMIT,INTERSECT,PIVOT,WHERE,COMPUTE,INTO,PLAN,WHILE,CONSTRAINT,IS,PRECISION,WITH,CONTAINS,ISNULL,PRIMARY,WITHIN GROUP,CONTAINSTABLE,JOIN,PRINT,WRITETEXT,CONTINUE,KEY,PROC,CONVERT,KILL,PROCEDURE,CREATE,LEFT,PUBLIC,CROSS,LIKE,RAISERROR,CURRENT,LINENO,READ,CURRENT_DATE,LOAD,READTEXT,CURRENT_TIME,MERGE,RECONFIGURE,CURRENT_TIMESTAMP,MINUTE,REFERENCES,CURSOR,MONEY,REPLICATION,DATABASE,NATIONAL,RESTORE,TYPE,DESC,key_type,interval").toList

/-- The `SqlServerKeywords` set built by `init()`: split the raw list on
commas and lower-case every entry (membership in the resulting Go set is
membership in this list). -/
def SqlServerKeywords : List (List Char) :=
  (splitOn ',' sqlServerKeywordsSrc).map (fun w => w.map Char.toLower)

/-- Function `IsSqlServerKeyword` from `db_mssql.go`: membership of the key, exactly
as given, in the lower-cased keyword set. -/
def IsSqlServerKeyword (key : List Char) : Bool :=
  SqlServerKeywords.contains key


set_option maxRecDepth 40000 in
theorem keywords_all_lower :
    ∀ w ∈ SqlServerKeywords, w.map Char.toLower = w := by decide

/-- C3 counterexample: the reserved-word check is not case-insensitive.
`ADD` heads the keyword list, yet only its lower-cased spelling is
recognized: `add` answers `true` while `ADD` and `Add` answer `false`. -/
theorem IsSqlServerKeyword_not_case_insensitive :
    IsSqlServerKeyword ("add".toList) = true ∧
    IsSqlServerKeyword ("ADD".toList) = false ∧
    IsSqlServerKeyword ("Add".toList) = false := by
  decide

/-- C3 (amended): the lookup is case-sensitive against the lower-cased
keyword set — a key is recognized exactly when it is already lower-case
and its lower-cased form is in the set; any key containing an upper-case
letter is never recognized, so case variants agree only once the caller
lower-cases the key before the lookup. -/
theorem IsSqlServerKeyword_lowercase_only :
    ∀ key : List Char,
      IsSqlServerKeyword key =
        ((key.map Char.toLower == key) && IsSqlServerKeyword (key.map Char.toLower)) := by
  intro key
  by_cases h : key.map Char.toLower = key
  · simp [h]
  · have hb : (key.map Char.toLower == key) = false := by
      simp only [beq_eq_false_iff_ne, ne_eq]
      exact h
    rw [hb, Bool.false_and]
    cases hk : IsSqlServerKeyword key with
    | false => rfl
    | true =>
      have hmem : key ∈ SqlServerKeywords := by
        simpa [IsSqlServerKeyword] using hk
      exact absurd (keywords_all_lower key hmem) h

/-- Method `(*dbBaseMssql).IndexExists`, abstracted over the injected
query-execution collaborator.  Modelled from the spec: the `dbQuerier`
and row types live outside this file; the collaborator is represented by
the outcome of `row.Scan(&cnt)` — either the scanned count or the scan
error.  The Go code ignores the value returned by `Scan`, so on error the
count keeps its zero value and the function still answers `cnt > 0`. -/
def IndexExists (scan : Except String Int) : Bool :=
  let cnt : Int :=
    match scan with
    | Except.ok v => v
    | Except.error _ => 0
  decide (0 < cnt)

/-- C4 counterexample: a failing scan is not propagated — `IndexExists`
turns the execution failure into the boolean answer `false`,
indistinguishable from a genuine zero index count. -/
theorem IndexExists_swallows_error :
    IndexExists (Except.error "connection refused") = false ∧
    IndexExists (Except.error "connection refused") = IndexExists (Except.ok 0) :=
  ⟨rfl, rfl⟩

/-- C4 (amended): when the injected collaborator fails, `IndexExists`
swallows the error: the scanned count keeps its zero value and the
function returns the boolean `false`, exactly as for a real count of 0;
no error reaches the caller. -/
theorem IndexExists_error_gives_false :
    ∀ e : String,
      IndexExists (Except.error e) = false ∧
      IndexExists (Except.error e) = IndexExists (Except.ok 0) :=
  fun _ => ⟨rfl, rfl⟩

/-- Modelled from the spec: `modelInfo` (the model-reflection record built
by the struct/model layer) is declared outside this file; `HasReturningID`
never inspects it, so an empty stand-in suffices. -/
structure ModelInfo

/-- Method `(*dbBaseMssql).HasReturningID` from `db_mssql.go`. -/
def HasReturningID (mi : ModelInfo) (query : String) : Bool :=
  false

/-- C7: `HasReturningID` returns `false` for every model and every query
string — the dialect unconditionally reports that an INSERT cannot return
a generated identifier. -/
theorem HasReturningID_always_false :
    ∀ (mi : ModelInfo) (query : String), HasReturningID mi query = false :=
  fun _ _ => rfl

/-- The diagnostic line `GenerateSpecifyIndex` writes to `DebugLog`. -/
def specifyIndexWarning : String :=
  "[WARN] Not support any specifying index action, so that action is ignored"

/-- Method `(*dbBaseMssql).GenerateSpecifyIndex`: the `DebugLog.Println` side
effect is made explicit as the second component (the emitted log lines);
the first component is the returned clause. -/
def GenerateSpecifyIndex (tableName : String) (useIndex : Int) (indexes : List String) :
    String × List String :=
  ("", [specifyIndexWarning])

/-- C8: for every table name, use-index mode and index list,
`GenerateSpecifyIndex` returns the empty clause and emits exactly the one
diagnostic warning; being a total function it never raises an error. -/
theorem GenerateSpecifyIndex_empty_with_warning :
    ∀ (tableName : String) (useIndex : Int) (indexes : List String),
      GenerateSpecifyIndex tableName useIndex indexes = ("", [specifyIndexWarning]) :=
  fun _ _ _ => rfl

/-- The Go call `fmt.Sprintf` restricted to the `ShowColumnsQuery` call site,
whose format string carries a single `%s` verb: the first `%s` is
replaced by the argument and everything else is copied verbatim. -/
def sprintfS : List Char → List Char → List Char
  | [], _ => []
  | c :: rest, arg =>
    if c = '%' ∧ rest.head? = some 's' then arg ++ rest.tail
    else c :: sprintfS rest arg

/-- The raw catalog-query template of `ShowColumnsQuery` (a Go raw string
literal: the embedded line breaks and tabs are part of the text). -/
def showColumnsTemplate : List Char :=
  ("select\n\tCOLUMN_NAME,\n\tDATA_TYPE,\n\tIS_NULLABLE\nfrom\n\tINFORMATION_SCHEMA.COLUMNS\nwhere\n\tTABLE_SCHEMA not in (\x27sys\x27, \x27INFORMATION_SCHEMA\x27)\n\tand TABLE_NAME = \x27%s\x27;").toList

/-- Method `(*dbBaseMssql).ShowColumnsQuery`: `fmt.Sprintf(template, table)`. -/
def ShowColumnsQuery (table : List Char) : List Char :=
  sprintfS showColumnsTemplate table

/-- The template text before the `%s` slot: it ends with
`TABLE_NAME = ` and an opening quote, so the substituted name lands in
the TABLE_NAME filter position. -/
def showColumnsPre : List Char :=
  ("select\n\tCOLUMN_NAME,\n\tDATA_TYPE,\n\tIS_NULLABLE\nfrom\n\tINFORMATION_SCHEMA.COLUMNS\nwhere\n\tTABLE_SCHEMA not in (\x27sys\x27, \x27INFORMATION_SCHEMA\x27)\n\tand TABLE_NAME = \x27").toList

/-- The template text after the `%s` slot. -/
def showColumnsPost : List Char := ("\x27;").toList

set_option maxRecDepth 40000 in
/-- C9 counterexample: the table name is not always embedded exactly once
in the output text — the name `sys` already occurs in the schema filter
of the template, so `ShowColumnsQuery("sys")` contains two occurrences of
`sys`. -/
theorem ShowColumnsQuery_sys_twice :
    countOccur ("sys".toList) (ShowColumnsQuery ("sys".toList)) = 2 := by
  decide

set_option maxRecDepth 40000 in
/-- C9 (amended): `ShowColumnsQuery` substitutes the table name exactly
once, at the TABLE_NAME filter position of the catalog template — the
output is the fixed prefix (ending in `TABLE_NAME = ` and a quote), then
the name, then a quote and a semicolon — and for a name such as `Orders`
that does not occur elsewhere
in the template the output contains exactly one occurrence of it. -/
theorem ShowColumnsQuery_embeds_once :
    (∀ table : List Char,
      ShowColumnsQuery table = showColumnsPre ++ table ++ showColumnsPost) ∧
    countOccur ("Orders".toList) (ShowColumnsQuery ("Orders".toList)) = 1 := by
  refine ⟨fun table => ?_, by decide⟩
  rfl

